import Mathlib

/-!
Shallow embedding of the scaleway-dynamic-inventory program (Go, file
src/unnamed/part_000, the current revision of the single-file tool).

Strings are modelled as Lean strings; the Go code indexes bytes, which
coincides with character indexing on the ASCII names this tool handles.
The remote directory (the Scaleway API) is modelled as a lookup function
from server name to an optional server record; the composite
GetServerID-then-GetServer call of getScWServerByName either yields the
server or fails.  Process exits on error paths are modelled as explicit
error results, and the sequence of directory queries a call performs is
returned as an explicit trace so that claims about the absence of
network calls can be stated.
-/

namespace ScwInv

/-- Decimal digit test, matching what strconv.Atoi accepts for a
single-character string. -/
def isDigitChar (c : Char) : Bool := decide ('0' ≤ c) && decide (c ≤ '9')

/-- Bool-valued list prefix test. -/
def hasPrefixL : List Char → List Char → Bool
  | [], _ => true
  | _ :: _, [] => false
  | p :: ps, c :: cs => p == c && hasPrefixL ps cs

/-- Scan every suffix of the input and test the given matcher there;
this is how an unanchored regexp match over a string is decided. -/
def scanMatch (f : List Char → Bool) : List Char → Bool
  | [] => f []
  | c :: cs => f (c :: cs) || scanMatch f cs

/-- strings.Contains: the needle occurs somewhere in the haystack. -/
def containsL (needle hay : List Char) : Bool := scanMatch (hasPrefixL needle) hay

/-- The first character exists and is a decimal digit. -/
def headDigit : List Char → Bool
  | [] => false
  | c :: _ => isDigitChar c

/-- The first character exists and is an opening square bracket or a
decimal digit: the character class [[0-9] of the source regexp. -/
def headBracketOrDigit : List Char → Bool
  | [] => false
  | c :: _ => c == '[' || isDigitChar c

/-- After at least one r has been consumed: either a digit comes next,
or another r followed again by this pattern. -/
def rTail : List Char → Bool
  | [] => false
  | c :: cs => isDigitChar c || (c == 'r' && rTail cs)

/-- The pattern r+[0-9]: one or more r characters followed by a digit. -/
def rPlusDigit : List Char → Bool
  | [] => false
  | c :: cs => c == 'r' && rTail cs

/-- Match of the regexp branch proxy[0-9] at the current position. -/
def matchProxyAt (l : List Char) : Bool :=
  hasPrefixL ("proxy".data) l && headDigit (l.drop 5)

/-- Match of the regexp branch master[[0-9] at the current position. -/
def matchMasterAt (l : List Char) : Bool :=
  hasPrefixL ("master".data) l && headBracketOrDigit (l.drop 6)

/-- Match of the regexp branch worker+[0-9] at the current position:
the literal worke, then r+, then a digit. -/
def matchWorkerAt (l : List Char) : Bool :=
  hasPrefixL ("worke".data) l && rPlusDigit (l.drop 5)

/-- allowedServerName.MatchString: unanchored match of the source
regexp proxy[0-9]|master[[0-9]|worker+[0-9] anywhere in the name. -/
def allowedServerName (s : String) : Bool :=
  scanMatch (fun l => matchProxyAt l || matchMasterAt l || matchWorkerAt l) s.data

/-- A server record as returned by the directory: the fields of
types.ScalewayServer that the program reads. -/
structure SServer where
  name : String
  publicIP : String
  privateIP : String
  tags : List String
deriving DecidableEq, Repr

/-- The directory collaborator: resolves a server name to a server, or
fails (NotFound / DirectoryUnavailable collapse to none). -/
abbrev Directory := String → Option SServer

/-- Errors with which a resolve call can terminate the process. -/
inductive ScwError where
  | invalidName
  | lookupFailed (name : String)
deriving DecidableEq, Repr

/-- The host-variable mapping built by getServer, as a partial map from
variable name to value. -/
abbrev HostVars := String → Option String

def hvEmpty : HostVars := fun _ => none

/-- Go map assignment: set or overwrite one key. -/
def hvInsert (m : HostVars) (k v : String) : HostVars :=
  fun x => if x = k then some v else m x

/-- The baseline ansible_ssh_common_args string assigned at line 189 of
the source. -/
def sshCommonArgsBase : String :=
  "-q -C -o ControlMaster=auto -o ControlPersist=5m -o ForwardAgent=yes -o StrictHostKeyChecking=no -o UserKnownHostsFile=/dev/null"

/-- The ProxyCommand clause appended for non-gateway targets, built
from the gateway public address. -/
def proxyCommandClause (gwIP : String) : String :=
  " -o ProxyCommand=\"ssh -W %h:%p -q root@" ++ gwIP ++ " -i ~/.ssh/scaleway.pem\""

/-- The vpn_ip derivation block at the end of getServer: when the name
has length at least 3 and its final character is a digit, classify by
substring containment in priority order proxy, master, worker and set
vpn_ip accordingly; otherwise leave the map unchanged. -/
def vpnUpdate (result : HostVars) (name : String) : HostVars :=
  let cs := name.data
  if cs.length - 1 > 1 then
    match cs.getLast? with
    | some c =>
        if isDigitChar c then
          if containsL ("proxy".data) cs then
            hvInsert result "vpn_ip" ("192.168.66.1" ++ String.singleton c)
          else if containsL ("master".data) cs then
            hvInsert result "vpn_ip" ("192.168.66.2" ++ String.singleton c)
          else if containsL ("worker".data) cs then
            hvInsert result "vpn_ip" ("192.168.66.3" ++ String.singleton c)
          else result
        else result
    | none => result
  else result

/-- The host-variable map getServer builds once both directory lookups
have succeeded: gw is the gateway server resolved under the name
proxy0, target the server the variables are derived from (the gateway
itself when serverName is proxy0). -/
def resolvedHV (gw target : SServer) (serverName : String) : HostVars :=
  let r1 := hvInsert (hvInsert hvEmpty "ansible_python_interpreter" "/usr/bin/python3")
              "ansible_user" "root"
  let r2 := hvInsert r1 "ansible_ssh_common_args" sshCommonArgsBase
  let r3 := if serverName = "proxy0" then hvInsert r2 "proxy_inet" "True"
            else hvInsert r2 "ansible_ssh_common_args"
                   (sshCommonArgsBase ++ proxyCommandClause gw.publicIP)
  let r4 := hvInsert r3 "ansible_host"
              (if target.publicIP = "" then target.privateIP else target.publicIP)
  vpnUpdate r4 target.name

/-- getServer of the source: validate the name against the allowed
pattern, resolve the gateway proxy0, then the target when it is not the
gateway, and derive the host variables.  The second component is the
sequence of names queried against the directory, in order. -/
def getServer (dir : Directory) (serverName : String) :
    Except ScwError HostVars × List String :=
  if allowedServerName serverName then
    match dir "proxy0" with
    | some serverProxy0 =>
        if serverName = "proxy0" then
          (Except.ok (resolvedHV serverProxy0 serverProxy0 serverName), ["proxy0"])
        else
          match dir serverName with
          | some server =>
              (Except.ok (resolvedHV serverProxy0 server serverName), ["proxy0", serverName])
          | none => (Except.error (ScwError.lookupFailed serverName), ["proxy0", serverName])
    | none => (Except.error (ScwError.lookupFailed "proxy0"), ["proxy0"])
  else (Except.error ScwError.invalidName, [])

/-- Append a server name under one tag of the grouping map, creating
the key at the end when it is new: the loop body of getServers. -/
def addTag : List (String × List String) → String → String → List (String × List String)
  | [], tag, nm => [(tag, [nm])]
  | p :: rest, tag, nm =>
      if p.1 = tag then (p.1, p.2 ++ [nm]) :: rest
      else p :: addTag rest tag nm

/-- Register one server under every one of its tags. -/
def addServerTags (result : List (String × List String)) (s : SServer) :
    List (String × List String) :=
  s.tags.foldl (fun r tag => addTag r tag s.name) result

/-- getServers of the source: group the directory server list by tag,
skipping servers whose name fails the allowed pattern.  The Go map is
modelled as an association list in key insertion order. -/
def getServers (servers : List SServer) : List (String × List String) :=
  servers.foldl (fun r s => if allowedServerName s.name then addServerTags r s else r) []

/-- Value list stored under a tag, the empty list when the key is
absent. -/
def lookupList : List (String × List String) → String → List String
  | [], _ => []
  | p :: rest, t => if p.1 = t then p.2 else lookupList rest t

/-- Key presence in the grouping map. -/
def hasKey : List (String × List String) → String → Bool
  | [], _ => false
  | p :: rest, t => p.1 == t || hasKey rest t

/-- The per-tag name list getServers is specified to produce: one copy
of the server name per occurrence of the tag, in directory order,
restricted to allowed names.  Written from the specification text. -/
def groupSpec : List SServer → String → List String
  | [], _ => []
  | s :: rest, t =>
      (if allowedServerName s.name then
        (s.tags.filter (fun u => u = t)).map (fun _ => s.name)
      else []) ++ groupSpec rest t

/-- Outcome of the argument dispatch in main. -/
inductive CliAction where
  | runList
  | runHost (h : String)
  | usage
  | hostArgMissing
  | argPanic
deriving DecidableEq, Repr

/-- Argument dispatch of main, over the full os.Args vector (program
name first): default the mode to list when no argument is given,
dispatch on the first argument, and read os.Args at index 2 for the
host mode (an out-of-range access panics). -/
def mainDispatch (argv : List String) : CliAction :=
  let osArg1 := match argv.drop 1 with
    | a :: _ => a
    | [] => "--list"
  if osArg1 = "--list" then CliAction.runList
  else if osArg1 = "--host" then
    if argv.length < 2 then CliAction.hostArgMissing
    else match argv.drop 2 with
      | h :: _ => CliAction.runHost h
      | [] => CliAction.argPanic
  else CliAction.usage

/-- Whether an action reaches the final Println of the inventory JSON. -/
def producesOutput : CliAction → Bool
  | CliAction.runList => true
  | CliAction.runHost _ => true
  | _ => false

/-- The allowed-name condition as the claim spells it out: the name
contains the literal proxy followed by a digit, or the literal master
followed by an opening bracket or a digit, or the literal worke
followed by one or more r and then a digit. -/
def AllowedNameSpec (s : String) : Prop :=
  (∃ pre d post, s.data = pre ++ "proxy".data ++ d :: post ∧ isDigitChar d = true) ∨
  (∃ pre c post, s.data = pre ++ "master".data ++ c :: post ∧
    (c = '[' ∨ isDigitChar c = true)) ∨
  (∃ pre k d post, 1 ≤ k ∧
    s.data = pre ++ "worke".data ++ List.replicate k 'r' ++ d :: post ∧ isDigitChar d = true)

/-- Class octet prefix of a name, by substring containment in priority
order proxy, master, worker.  Written from the specification text. -/
def classOctet (name : String) : Option String :=
  if containsL ("proxy".data) name.data then some "1"
  else if containsL ("master".data) name.data then some "2"
  else if containsL ("worker".data) name.data then some "3"
  else none

/-- The vpn_ip value the claim predicts: defined exactly when the name
has at least two characters, ends in a digit and contains a class
substring; then 192.168.66. followed by the class octet prefix and the
single trailing character.  Written from the specification text. -/
def vpnIpSpec (name : String) : Option String :=
  match name.data.getLast?, classOctet name with
  | some c, some oct =>
      if 2 ≤ name.data.length ∧ isDigitChar c = true then
        some ("192.168.66." ++ oct ++ String.singleton c)
      else none
  | _, _ => none

/-- Order on grouping entries by key, the order json.Marshal sorts map
keys in. -/
def keyLE (a b : String × List String) : Prop := a.1 ≤ b.1

/-- Strict key order on grouping entries. -/
def keyLT (a b : String × List String) : Prop := a.1 < b.1

instance : DecidableRel keyLE := fun a b => (inferInstance : Decidable (a.1 ≤ b.1))

instance : IsTotal (String × List String) keyLE := ⟨fun a b => le_total a.1 b.1⟩

instance : IsTrans (String × List String) keyLE := ⟨fun _ _ _ h1 h2 => le_trans h1 h2⟩

instance : IsAntisymm (String × List String) keyLT :=
  ⟨fun _ _ h1 h2 => absurd h2 (lt_asymm h1)⟩

/-- Minimal JSON string escaping (quote and backslash). -/
def jsonEscape (s : String) : String :=
  s.data.foldl (fun acc c =>
    if c = '"' then acc ++ "\\\""
    else if c = '\\' then acc ++ "\\\\"
    else acc.push c) ""

/-- A JSON string literal. -/
def jsonStr (s : String) : String := "\"" ++ jsonEscape s ++ "\""

/-- A JSON array of strings. -/
def jsonArr (l : List String) : String :=
  "[" ++ String.intercalate "," (l.map jsonStr) ++ "]"

/-- json.Marshal on the grouping map: keys are emitted in sorted
order, each with its name array, whatever iteration order the map
presents its entries in. -/
def marshalGroups (m : List (String × List String)) : String :=
  "\x7b" ++ String.intercalate ","
    ((List.insertionSort keyLE m).map (fun p => jsonStr p.1 ++ ":" ++ jsonArr p.2)) ++ "\x7d"

/-- Gateway server of the concrete example directory. -/
def exGateway : SServer := ⟨"proxy0", "51.15.40.1", "10.1.40.1", ["proxy"]⟩

/-- Example worker-class server with no public address. -/
def exProxy7 : SServer := ⟨"proxy7", "", "10.1.40.7", ["proxy", "vpn"]⟩

/-- Example master-class server. -/
def exMaster3 : SServer := ⟨"master3", "51.15.40.3", "10.1.40.3", ["master"]⟩

/-- Example server whose name passes the pattern but ends in a letter. -/
def exProxy1a : SServer := ⟨"proxy1a", "51.15.40.9", "10.1.40.9", []⟩

/-- A concrete directory used to instantiate the theorems. -/
def exDir : Directory := fun n =>
  if n = "proxy0" then some exGateway
  else if n = "proxy7" then some exProxy7
  else if n = "master3" then some exMaster3
  else if n = "proxy1a" then some exProxy1a
  else none

/-- A concrete directory listing used to instantiate the grouping
theorems. -/
def exServers : List SServer := [exProxy7, exMaster3, exGateway]

/-- The grouping of exServers presented in a different entry order, as
a nondeterministic Go map iteration could present it. -/
def exPermutedGroups : List (String × List String) :=
  [("master", ["master3"]), ("vpn", ["proxy7"]), ("proxy", ["proxy7", "proxy0"])]

/-!
Lemmas: characterization of the matcher primitives.
-/

theorem hasPrefixL_iff (p l : List Char) :
    hasPrefixL p l = true ↔ ∃ rest, l = p ++ rest := by
  induction p generalizing l with
  | nil => simp [hasPrefixL]
  | cons a ps ih =>
    cases l with
    | nil =>
      simp only [hasPrefixL, List.cons_append]
      constructor
      · intro h; cases h
      · rintro ⟨rest, h⟩; cases h
    | cons c cs =>
      simp only [hasPrefixL, Bool.and_eq_true, beq_iff_eq, ih, List.cons_append,
        List.cons.injEq]
      constructor
      · rintro ⟨rfl, rest, rfl⟩; exact ⟨rest, rfl, rfl⟩
      · rintro ⟨rest, rfl, rfl⟩; exact ⟨rfl, rest, rfl⟩

theorem scanMatch_iff (f : List Char → Bool) (l : List Char) :
    scanMatch f l = true ↔ ∃ pre post, l = pre ++ post ∧ f post = true := by
  induction l with
  | nil =>
    constructor
    · intro h; exact ⟨[], [], rfl, h⟩
    · rintro ⟨pre, post, heq, hf⟩
      obtain ⟨h1, h2⟩ := List.append_eq_nil.mp heq.symm
      subst h2
      simpa [scanMatch] using hf
  | cons c cs ih =>
    rw [scanMatch, Bool.or_eq_true, ih]
    constructor
    · rintro (h | ⟨pre, post, rfl, hf⟩)
      · exact ⟨[], c :: cs, rfl, h⟩
      · exact ⟨c :: pre, post, rfl, hf⟩
    · rintro ⟨pre, post, heq, hf⟩
      cases pre with
      | nil =>
        rw [List.nil_append] at heq
        subst heq
        exact Or.inl hf
      | cons a pre2 =>
        rw [List.cons_append] at heq
        injection heq with h1 h2
        exact Or.inr ⟨pre2, post, h2, hf⟩

theorem headDigit_iff (l : List Char) :
    headDigit l = true ↔ ∃ d rest, l = d :: rest ∧ isDigitChar d = true := by
  cases l with
  | nil =>
    constructor
    · intro h; cases h
    · rintro ⟨d, rest, h, _⟩; cases h
  | cons c cs =>
    simp only [headDigit, List.cons.injEq]
    constructor
    · intro h; exact ⟨c, cs, ⟨rfl, rfl⟩, h⟩
    · rintro ⟨d, rest, ⟨rfl, rfl⟩, h⟩; exact h

theorem headBracketOrDigit_iff (l : List Char) :
    headBracketOrDigit l = true ↔
      ∃ c rest, l = c :: rest ∧ (c = '[' ∨ isDigitChar c = true) := by
  cases l with
  | nil =>
    constructor
    · intro h; cases h
    · rintro ⟨c, rest, h, _⟩; cases h
  | cons c cs =>
    simp only [headBracketOrDigit, Bool.or_eq_true, beq_iff_eq, List.cons.injEq]
    constructor
    · intro h; exact ⟨c, cs, ⟨rfl, rfl⟩, h⟩
    · rintro ⟨d, rest, ⟨rfl, rfl⟩, h⟩; exact h

theorem rTail_iff (l : List Char) :
    rTail l = true ↔
      ∃ j d rest, l = List.replicate j 'r' ++ d :: rest ∧ isDigitChar d = true := by
  induction l with
  | nil =>
    constructor
    · intro h; cases h
    · rintro ⟨j, d, rest, heq, _⟩
      cases j <;> simp [List.replicate] at heq
  | cons c cs ih =>
    rw [rTail, Bool.or_eq_true, Bool.and_eq_true, beq_iff_eq]
    constructor
    · rintro (hd | ⟨rfl, htail⟩)
      · exact ⟨0, c, cs, by simp, hd⟩
      · obtain ⟨j, d, rest, heq, hd⟩ := ih.mp htail
        exact ⟨j + 1, d, rest, by simp [List.replicate_succ, heq], hd⟩
    · rintro ⟨j, d, rest, heq, hd⟩
      cases j with
      | zero =>
        rw [List.replicate, List.nil_append] at heq
        injection heq with h1 h2
        subst h1
        exact Or.inl hd
      | succ n =>
        rw [List.replicate_succ, List.cons_append] at heq
        injection heq with h1 h2
        subst h1
        exact Or.inr ⟨rfl, ih.mpr ⟨n, d, rest, h2, hd⟩⟩

theorem rPlusDigit_iff (l : List Char) :
    rPlusDigit l = true ↔
      ∃ k d rest, 1 ≤ k ∧ l = List.replicate k 'r' ++ d :: rest ∧
        isDigitChar d = true := by
  cases l with
  | nil =>
    constructor
    · intro h; cases h
    · rintro ⟨k, d, rest, hk, heq, _⟩
      cases k with
      | zero => cases hk
      | succ n => rw [List.replicate_succ, List.cons_append] at heq; cases heq
  | cons c cs =>
    rw [rPlusDigit, Bool.and_eq_true, beq_iff_eq, rTail_iff]
    constructor
    · rintro ⟨rfl, j, d, rest, heq, hd⟩
      exact ⟨j + 1, d, rest, Nat.le_add_left 1 j,
        by simp [List.replicate_succ, heq], hd⟩
    · rintro ⟨k, d, rest, hk, heq, hd⟩
      cases k with
      | zero => cases hk
      | succ n =>
        rw [List.replicate_succ, List.cons_append] at heq
        injection heq with h1 h2
        subst h1
        exact ⟨rfl, n, d, rest, h2, hd⟩

theorem matchProxyAt_iff (l : List Char) :
    matchProxyAt l = true ↔
      ∃ d rest, l = "proxy".data ++ d :: rest ∧ isDigitChar d = true := by
  rw [matchProxyAt, Bool.and_eq_true, hasPrefixL_iff]
  constructor
  · rintro ⟨⟨rest0, rfl⟩, hd⟩
    have h5 : ("proxy".data).length = 5 := rfl
    rw [← h5, List.drop_left] at hd
    obtain ⟨d, rest, rfl, hdig⟩ := (headDigit_iff rest0).mp hd
    exact ⟨d, rest, rfl, hdig⟩
  · rintro ⟨d, rest, rfl, hdig⟩
    refine ⟨⟨d :: rest, rfl⟩, ?_⟩
    have h5 : ("proxy".data).length = 5 := rfl
    rw [← h5, List.drop_left]
    exact (headDigit_iff (d :: rest)).mpr ⟨d, rest, rfl, hdig⟩

theorem matchMasterAt_iff (l : List Char) :
    matchMasterAt l = true ↔
      ∃ c rest, l = "master".data ++ c :: rest ∧
        (c = '[' ∨ isDigitChar c = true) := by
  rw [matchMasterAt, Bool.and_eq_true, hasPrefixL_iff]
  constructor
  · rintro ⟨⟨rest0, rfl⟩, hd⟩
    have h6 : ("master".data).length = 6 := rfl
    rw [← h6, List.drop_left] at hd
    obtain ⟨c, rest, rfl, hc⟩ := (headBracketOrDigit_iff rest0).mp hd
    exact ⟨c, rest, rfl, hc⟩
  · rintro ⟨c, rest, rfl, hc⟩
    refine ⟨⟨c :: rest, rfl⟩, ?_⟩
    have h6 : ("master".data).length = 6 := rfl
    rw [← h6, List.drop_left]
    exact (headBracketOrDigit_iff (c :: rest)).mpr ⟨c, rest, rfl, hc⟩

theorem matchWorkerAt_iff (l : List Char) :
    matchWorkerAt l = true ↔
      ∃ k d rest, 1 ≤ k ∧
        l = "worke".data ++ List.replicate k 'r' ++ d :: rest ∧
        isDigitChar d = true := by
  rw [matchWorkerAt, Bool.and_eq_true, hasPrefixL_iff]
  constructor
  · rintro ⟨⟨rest0, rfl⟩, hd⟩
    have h5 : ("worke".data).length = 5 := rfl
    rw [← h5, List.drop_left] at hd
    obtain ⟨k, d, rest, hk, rfl, hdig⟩ := (rPlusDigit_iff rest0).mp hd
    exact ⟨k, d, rest, hk, by rw [List.append_assoc], hdig⟩
  · rintro ⟨k, d, rest, hk, rfl, hdig⟩
    refine ⟨⟨List.replicate k 'r' ++ d :: rest, by rw [List.append_assoc]⟩, ?_⟩
    have h5 : ("worke".data).length = 5 := rfl
    rw [List.append_assoc, ← h5, List.drop_left]
    exact (rPlusDigit_iff _).mpr ⟨k, d, rest, hk, rfl, hdig⟩

theorem allowedServerName_iff (s : String) :
    allowedServerName s = true ↔ AllowedNameSpec s := by
  rw [allowedServerName, scanMatch_iff, AllowedNameSpec]
  constructor
  · rintro ⟨pre, post, heq, hf⟩
    rw [Bool.or_eq_true, Bool.or_eq_true] at hf
    rcases hf with (hp | hm) | hw
    · obtain ⟨d, rest, rfl, hdig⟩ := (matchProxyAt_iff post).mp hp
      exact Or.inl ⟨pre, d, rest, by rw [heq, List.append_assoc], hdig⟩
    · obtain ⟨c, rest, rfl, hc⟩ := (matchMasterAt_iff post).mp hm
      exact Or.inr (Or.inl ⟨pre, c, rest, by rw [heq, List.append_assoc], hc⟩)
    · obtain ⟨k, d, rest, hk, rfl, hdig⟩ := (matchWorkerAt_iff post).mp hw
      refine Or.inr (Or.inr ⟨pre, k, d, rest, hk, ?_, hdig⟩)
      rw [heq]
      simp only [List.append_assoc]
  · rintro (⟨pre, d, rest, heq, hdig⟩ | ⟨pre, c, rest, heq, hc⟩ |
      ⟨pre, k, d, rest, hk, heq, hdig⟩)
    · refine ⟨pre, "proxy".data ++ d :: rest, by rw [heq, List.append_assoc], ?_⟩
      rw [Bool.or_eq_true, Bool.or_eq_true]
      exact Or.inl (Or.inl ((matchProxyAt_iff _).mpr ⟨d, rest, rfl, hdig⟩))
    · refine ⟨pre, "master".data ++ c :: rest, by rw [heq, List.append_assoc], ?_⟩
      rw [Bool.or_eq_true, Bool.or_eq_true]
      exact Or.inl (Or.inr ((matchMasterAt_iff _).mpr ⟨c, rest, rfl, hc⟩))
    · refine ⟨pre, "worke".data ++ List.replicate k 'r' ++ d :: rest, ?_, ?_⟩
      · rw [heq]
        simp only [List.append_assoc]
      · rw [Bool.or_eq_true, Bool.or_eq_true]
        exact Or.inr ((matchWorkerAt_iff _).mpr ⟨k, d, rest, hk, rfl, hdig⟩)

/-!
Lemmas: the host-variable map of a successful resolve, key by key.
-/

theorem hvInsert_same (m : HostVars) (k v : String) : hvInsert m k v k = some v := by
  simp [hvInsert]

theorem hvInsert_ne (m : HostVars) (k v x : String) (h : x ≠ k) :
    hvInsert m k v x = m x := by
  simp [hvInsert, h]

theorem containsL_length_le {ndl hay : List Char} (h : containsL ndl hay = true) :
    ndl.length ≤ hay.length := by
  rw [containsL, scanMatch_iff] at h
  obtain ⟨pre, post, rfl, hp⟩ := h
  obtain ⟨rest, rfl⟩ := (hasPrefixL_iff ndl post).mp hp
  simp only [List.length_append]
  omega

theorem hvApply_ite (c : Prop) [Decidable c] (f g : HostVars) (k : String) :
    (if c then f else g) k = if c then f k else g k := by
  split <;> rfl

theorem vpnUpdate_ne (m : HostVars) (name k : String) (hk : k ≠ "vpn_ip") :
    vpnUpdate m name k = m k := by
  unfold vpnUpdate
  cases hgl : name.data.getLast? with
  | none => split <;> simp [hgl]
  | some c =>
    by_cases hd : isDigitChar c <;>
    by_cases hp : containsL ("proxy".data) name.data <;>
    by_cases hm : containsL ("master".data) name.data <;>
    by_cases hw : containsL ("worker".data) name.data <;>
    simp [hgl, hd, hp, hm, hw, hvApply_ite, hvInsert, hk]

theorem vpnUpdate_vpn (m : HostVars) (name : String) :
    vpnUpdate m name "vpn_ip" =
      match vpnIpSpec name with
      | some v => some v
      | none => m "vpn_ip" := by
  unfold vpnUpdate vpnIpSpec classOctet
  by_cases hlen : name.data.length - 1 > 1
  · cases hgl : name.data.getLast? with
    | none =>
      rw [List.getLast?_eq_none_iff] at hgl
      rw [hgl] at hlen
      simp at hlen
    | some c =>
      have h2 : 2 ≤ name.length := by
        show 2 ≤ name.data.length
        omega
      have hlen2 : 1 < name.length - 1 := by
        show 1 < name.data.length - 1
        omega
      by_cases hd : isDigitChar c <;>
      by_cases hp : containsL ("proxy".data) name.data <;>
      by_cases hm : containsL ("master".data) name.data <;>
      by_cases hw : containsL ("worker".data) name.data <;>
      simp [hlen2, hgl, hd, hp, hm, hw, h2, hvInsert]
  · have hsmall : name.data.length ≤ 2 := by omega
    have hp : ¬ containsL ("proxy".data) name.data = true := by
      intro h
      have hle := containsL_length_le h
      have h5 : ("proxy".data).length = 5 := rfl
      rw [h5] at hle
      omega
    have hm : ¬ containsL ("master".data) name.data = true := by
      intro h
      have hle := containsL_length_le h
      have h6 : ("master".data).length = 6 := rfl
      rw [h6] at hle
      omega
    have hw : ¬ containsL ("worker".data) name.data = true := by
      intro h
      have hle := containsL_length_le h
      have h6 : ("worker".data).length = 6 := rfl
      rw [h6] at hle
      omega
    cases hgl : name.data.getLast? with
    | none => simp [hlen, hgl]
    | some c => simp [hlen, hgl, hp, hm, hw]

theorem resolvedHV_python (gw t : SServer) (n : String) :
    resolvedHV gw t n "ansible_python_interpreter" = some "/usr/bin/python3" := by
  simp only [resolvedHV]
  rw [vpnUpdate_ne _ _ _ (by decide)]
  by_cases hn : n = "proxy0" <;> simp [hn, hvInsert]

theorem resolvedHV_user (gw t : SServer) (n : String) :
    resolvedHV gw t n "ansible_user" = some "root" := by
  simp only [resolvedHV]
  rw [vpnUpdate_ne _ _ _ (by decide)]
  by_cases hn : n = "proxy0" <;> simp [hn, hvInsert]

theorem resolvedHV_host (gw t : SServer) (n : String) :
    resolvedHV gw t n "ansible_host" =
      some (if t.publicIP = "" then t.privateIP else t.publicIP) := by
  simp only [resolvedHV]
  rw [vpnUpdate_ne _ _ _ (by decide)]
  rw [hvInsert_same]

theorem resolvedHV_proxyInet (gw t : SServer) (n : String) :
    resolvedHV gw t n "proxy_inet" = if n = "proxy0" then some "True" else none := by
  simp only [resolvedHV]
  rw [vpnUpdate_ne _ _ _ (by decide)]
  by_cases hn : n = "proxy0" <;> simp [hn, hvInsert, hvEmpty]

theorem resolvedHV_sshArgs (gw t : SServer) (n : String) :
    resolvedHV gw t n "ansible_ssh_common_args" =
      some (if n = "proxy0" then sshCommonArgsBase
            else sshCommonArgsBase ++ proxyCommandClause gw.publicIP) := by
  simp only [resolvedHV]
  rw [vpnUpdate_ne _ _ _ (by decide)]
  by_cases hn : n = "proxy0" <;> simp [hn, hvInsert]

theorem resolvedHV_vpn (gw t : SServer) (n : String) :
    resolvedHV gw t n "vpn_ip" = vpnIpSpec t.name := by
  simp only [resolvedHV]
  rw [vpnUpdate_vpn]
  by_cases hn : n = "proxy0" <;>
    cases hsp : vpnIpSpec t.name <;>
    simp [hn, hvInsert, hvEmpty, hsp]

/-!
Lemmas: the tag grouping.
-/

theorem lookupList_addTag (m : List (String × List String)) (tag nm t : String) :
    lookupList (addTag m tag nm) t =
      if t = tag then lookupList m tag ++ [nm] else lookupList m t := by
  induction m with
  | nil =>
    by_cases h : t = tag
    · simp [addTag, lookupList, h]
    · simp [addTag, lookupList, h, Ne.symm h]
  | cons p rest ih =>
    by_cases hp : p.1 = tag
    · by_cases ht : t = tag
      · simp [addTag, lookupList, hp, ht]
      · simp [addTag, lookupList, hp, ht, Ne.symm ht]
    · by_cases ht : t = tag
      · subst ht
        simp [addTag, lookupList, hp, ih]
      · simp [addTag, lookupList, hp, ht, Ne.symm ht, ih]

theorem lookupList_foldl_addTag (nm : String) (tags : List String)
    (m : List (String × List String)) (t : String) :
    lookupList (tags.foldl (fun r tag => addTag r tag nm) m) t =
      lookupList m t ++ (tags.filter (fun u => u = t)).map (fun _ => nm) := by
  induction tags generalizing m with
  | nil => simp
  | cons tg rest ih =>
    rw [List.foldl_cons, ih, lookupList_addTag]
    by_cases h : t = tg
    · subst h
      simp [List.filter_cons]
    · simp [List.filter_cons, h, Ne.symm h]

theorem lookupList_getServers_aux (ss : List SServer)
    (m : List (String × List String)) (t : String) :
    lookupList (ss.foldl
        (fun r s => if allowedServerName s.name then addServerTags r s else r) m) t =
      lookupList m t ++ groupSpec ss t := by
  induction ss generalizing m with
  | nil => simp [groupSpec]
  | cons s rest ih =>
    rw [List.foldl_cons]
    by_cases ha : allowedServerName s.name
    · rw [if_pos ha, ih, addServerTags, lookupList_foldl_addTag]
      simp [groupSpec, ha, List.append_assoc]
    · rw [if_neg ha, ih]
      simp [groupSpec, ha]

theorem lookupList_getServers (ss : List SServer) (t : String) :
    lookupList (getServers ss) t = groupSpec ss t := by
  rw [getServers, lookupList_getServers_aux]
  rfl

theorem addTag_values_ne_nil (m : List (String × List String)) (tag nm : String)
    (h : ∀ p ∈ m, p.2 ≠ []) : ∀ p ∈ addTag m tag nm, p.2 ≠ [] := by
  induction m with
  | nil =>
    intro p hp
    simp [addTag] at hp
    subst hp
    simp
  | cons q rest ih =>
    intro p hp
    rw [addTag] at hp
    by_cases hq : q.1 = tag
    · rw [if_pos hq] at hp
      rcases List.mem_cons.mp hp with h1 | h2
      · subst h1
        simp
      · exact h p (List.mem_cons_of_mem q h2)
    · rw [if_neg hq] at hp
      rcases List.mem_cons.mp hp with h1 | h2
      · subst h1
        exact h p (List.mem_cons_self p rest)
      · exact ih (fun r hr => h r (List.mem_cons_of_mem q hr)) p h2

theorem foldl_addTag_values_ne_nil (nm : String) (tags : List String)
    (m : List (String × List String)) (h : ∀ p ∈ m, p.2 ≠ []) :
    ∀ p ∈ tags.foldl (fun r tag => addTag r tag nm) m, p.2 ≠ [] := by
  induction tags generalizing m with
  | nil => exact h
  | cons tg rest ih =>
    rw [List.foldl_cons]
    exact ih _ (addTag_values_ne_nil m tg nm h)

theorem getServers_values_ne_nil (ss : List SServer) :
    ∀ p ∈ getServers ss, p.2 ≠ [] := by
  rw [getServers]
  generalize hstart : ([] : List (String × List String)) = m0
  have h0 : ∀ p ∈ m0, p.2 ≠ [] := by
    rw [← hstart]
    intro p hp
    cases hp
  clear hstart
  induction ss generalizing m0 with
  | nil => exact h0
  | cons s rest ih =>
    rw [List.foldl_cons]
    by_cases ha : allowedServerName s.name
    · rw [if_pos ha]
      exact ih _ (foldl_addTag_values_ne_nil s.name s.tags m0 h0)
    · rw [if_neg ha]
      exact ih _ h0

theorem hasKey_iff_lookupList_ne_nil (m : List (String × List String)) (t : String)
    (h : ∀ p ∈ m, p.2 ≠ []) : hasKey m t = true ↔ lookupList m t ≠ [] := by
  induction m with
  | nil => simp [hasKey, lookupList]
  | cons p rest ih =>
    rw [hasKey, lookupList, Bool.or_eq_true, beq_iff_eq]
    by_cases hp : p.1 = t
    · simp [hp, h p (List.mem_cons_self p rest)]
    · simp only [hp, if_neg hp, false_or]
      exact ih (fun r hr => h r (List.mem_cons_of_mem p hr))

/-!
Lemmas: distinct keys and order-insensitive serialization.
-/

theorem addTag_key_mem (m : List (String × List String)) (tag nm : String) :
    ∀ q ∈ addTag m tag nm, q.1 ∈ m.map Prod.fst ∨ q.1 = tag := by
  induction m with
  | nil =>
    intro q hq
    simp [addTag] at hq
    subst hq
    exact Or.inr rfl
  | cons p rest ih =>
    intro q hq
    rw [addTag] at hq
    by_cases hp : p.1 = tag
    · rw [if_pos hp] at hq
      rcases List.mem_cons.mp hq with h1 | h2
      · subst h1
        exact Or.inl (by simp)
      · exact Or.inl (List.mem_map_of_mem Prod.fst (List.mem_cons_of_mem p h2))
    · rw [if_neg hp] at hq
      rcases List.mem_cons.mp hq with h1 | h2
      · subst h1
        exact Or.inl (by simp)
      · rcases ih q h2 with h3 | h3
        · refine Or.inl ?_
          simp only [List.map_cons, List.mem_cons]
          exact Or.inr h3
        · exact Or.inr h3

theorem addTag_keys_pairwise (m : List (String × List String)) (tag nm : String)
    (h : m.Pairwise (fun a b => a.1 ≠ b.1)) :
    (addTag m tag nm).Pairwise (fun a b => a.1 ≠ b.1) := by
  induction m with
  | nil => simp [addTag]
  | cons p rest ih =>
    rw [List.pairwise_cons] at h
    obtain ⟨hhead, hrest⟩ := h
    rw [addTag]
    by_cases hp : p.1 = tag
    · rw [if_pos hp, List.pairwise_cons]
      exact ⟨hhead, hrest⟩
    · rw [if_neg hp, List.pairwise_cons]
      refine ⟨?_, ih hrest⟩
      intro q hq
      rcases addTag_key_mem rest tag nm q hq with h1 | h1
      · obtain ⟨r, hr, hr1⟩ := List.mem_map.mp h1
        rw [← hr1]
        exact hhead r hr
      · rw [h1]
        exact hp

theorem foldl_addTag_keys_pairwise (nm : String) (tags : List String)
    (m : List (String × List String)) (h : m.Pairwise (fun a b => a.1 ≠ b.1)) :
    (tags.foldl (fun r tag => addTag r tag nm) m).Pairwise (fun a b => a.1 ≠ b.1) := by
  induction tags generalizing m with
  | nil => exact h
  | cons tg rest ih =>
    rw [List.foldl_cons]
    exact ih _ (addTag_keys_pairwise m tg nm h)

theorem getServers_keys_pairwise (ss : List SServer) :
    (getServers ss).Pairwise (fun a b => a.1 ≠ b.1) := by
  rw [getServers]
  generalize hstart : ([] : List (String × List String)) = m0
  have h0 : m0.Pairwise (fun a b => a.1 ≠ b.1) := by
    rw [← hstart]
    exact List.Pairwise.nil
  clear hstart
  induction ss generalizing m0 with
  | nil => exact h0
  | cons s rest ih =>
    rw [List.foldl_cons]
    by_cases ha : allowedServerName s.name
    · rw [if_pos ha]
      exact ih _ (foldl_addTag_keys_pairwise s.name s.tags m0 h0)
    · rw [if_neg ha]
      exact ih _ h0

theorem marshalGroups_perm (m1 m2 : List (String × List String))
    (hperm : m1.Perm m2) (hnd : m2.Pairwise (fun a b => a.1 ≠ b.1)) :
    marshalGroups m1 = marshalGroups m2 := by
  have hsymm : ∀ {x y : String × List String}, x.1 ≠ y.1 → y.1 ≠ x.1 :=
    fun h => Ne.symm h
  have hp1 : (List.insertionSort keyLE m1).Perm m1 := List.perm_insertionSort keyLE m1
  have hp2 : (List.insertionSort keyLE m2).Perm m2 := List.perm_insertionSort keyLE m2
  have hperm12 : (List.insertionSort keyLE m1).Perm (List.insertionSort keyLE m2) :=
    (hp1.trans hperm).trans hp2.symm
  have hnd1 : (List.insertionSort keyLE m1).Pairwise (fun a b => a.1 ≠ b.1) :=
    ((hperm12.trans hp2).pairwise_iff hsymm).mpr hnd
  have hnd2 : (List.insertionSort keyLE m2).Pairwise (fun a b => a.1 ≠ b.1) :=
    (hp2.pairwise_iff hsymm).mpr hnd
  have hs1 : (List.insertionSort keyLE m1).Sorted keyLE :=
    List.sorted_insertionSort keyLE m1
  have hs2 : (List.insertionSort keyLE m2).Sorted keyLE :=
    List.sorted_insertionSort keyLE m2
  have hlt1 : (List.insertionSort keyLE m1).Sorted keyLT := by
    have hand := List.Pairwise.and hs1 hnd1
    exact hand.imp (fun h => lt_of_le_of_ne h.1 h.2)
  have hlt2 : (List.insertionSort keyLE m2).Sorted keyLT := by
    have hand := List.Pairwise.and hs2 hnd2
    exact hand.imp (fun h => lt_of_le_of_ne h.1 h.2)
  have heq : List.insertionSort keyLE m1 = List.insertionSort keyLE m2 :=
    List.eq_of_perm_of_sorted hperm12 hlt1 hlt2
  rw [marshalGroups, marshalGroups, heq]

theorem getServer_ok (dir : Directory) (name : String) (gw srv : SServer)
    (hall : allowedServerName name = true) (hgw : dir "proxy0" = some gw)
    (hsrv : dir name = some srv) :
    (getServer dir name).1 =
      Except.ok (resolvedHV gw (if name = "proxy0" then gw else srv) name) ∧
    (getServer dir name).2 = (if name = "proxy0" then ["proxy0"] else ["proxy0", name]) := by
  by_cases hn : name = "proxy0"
  · subst hn
    rw [hgw] at hsrv
    injection hsrv with h
    subst h
    constructor <;> simp [getServer, hall, hgw]
  · constructor <;> simp [getServer, hall, hgw, hsrv, hn]

/-!
The claims.
-/

/-- C2: for every input name, the resolve operation validates the name
against the allowed pattern before performing any directory lookup, and
fails with the invalid-name error, with no directory call made,
whenever the name does not match the pattern. -/
theorem claim_C2 :
    (∀ (name : String) (dir : Directory), allowedServerName name = false →
      getServer dir name = (Except.error ScwError.invalidName, [])) ∧
    (∀ (name : String) (dir : Directory), (getServer dir name).2 ≠ [] →
      allowedServerName name = true) := by
  constructor
  · intro name dir h
    simp [getServer, h]
  · intro name dir h
    cases hall : allowedServerName name with
    | true => rfl
    | false =>
      exfalso
      apply h
      simp [getServer, hall]

theorem claim_C2_witness :
    getServer exDir "foo" = (Except.error ScwError.invalidName, []) :=
  claim_C2.1 "foo" exDir (by decide)

/-- C1 counterexample: the name unclassified9 does not match the
allowed-name regexp, so the resolve operation fails with the
invalid-name error, making no directory call and returning no
host-variable mapping at all. -/
theorem claim_C1_cex :
    (getServer exDir "unclassified9").1 = Except.error ScwError.invalidName ∧
    (getServer exDir "unclassified9").2 = [] := ⟨rfl, rfl⟩

/-- C1 (amended): a target name that matches no class substring, such
as unclassified9, fails the allowed-name pattern, so the resolve
operation fails fast with the invalid-name error instead of returning
a mapping; a name that does match the pattern but ends in a non-digit,
such as proxy1a, yields a complete mapping (interpreter, user, ssh
args, host) with no vpn_ip key. -/
theorem claim_C1 (dir : Directory) (gw srv : SServer)
    (hgw : dir "proxy0" = some gw) (hsrv : dir "proxy1a" = some srv)
    (hname : srv.name = "proxy1a") :
    (getServer dir "unclassified9").1 = Except.error ScwError.invalidName ∧
    (getServer dir "unclassified9").2 = [] ∧
    (getServer dir "proxy1a").1 = Except.ok (resolvedHV gw srv "proxy1a") ∧
    resolvedHV gw srv "proxy1a" "ansible_python_interpreter" = some "/usr/bin/python3" ∧
    resolvedHV gw srv "proxy1a" "ansible_user" = some "root" ∧
    resolvedHV gw srv "proxy1a" "ansible_ssh_common_args" =
      some (sshCommonArgsBase ++ proxyCommandClause gw.publicIP) ∧
    resolvedHV gw srv "proxy1a" "ansible_host" =
      some (if srv.publicIP = "" then srv.privateIP else srv.publicIP) ∧
    resolvedHV gw srv "proxy1a" "vpn_ip" = none := by
  refine ⟨rfl, rfl, ?_, resolvedHV_python gw srv "proxy1a",
    resolvedHV_user gw srv "proxy1a", ?_, resolvedHV_host gw srv "proxy1a", ?_⟩
  · have h := (getServer_ok dir "proxy1a" gw srv rfl hgw hsrv).1
    simpa using h
  · have h := resolvedHV_sshArgs gw srv "proxy1a"
    simpa using h
  · rw [resolvedHV_vpn, hname]
    decide

theorem claim_C1_witness :
    (getServer exDir "unclassified9").1 = Except.error ScwError.invalidName ∧
    (getServer exDir "unclassified9").2 = [] ∧
    (getServer exDir "proxy1a").1 = Except.ok (resolvedHV exGateway exProxy1a "proxy1a") ∧
    resolvedHV exGateway exProxy1a "proxy1a" "ansible_python_interpreter" =
      some "/usr/bin/python3" ∧
    resolvedHV exGateway exProxy1a "proxy1a" "ansible_user" = some "root" ∧
    resolvedHV exGateway exProxy1a "proxy1a" "ansible_ssh_common_args" =
      some (sshCommonArgsBase ++ proxyCommandClause exGateway.publicIP) ∧
    resolvedHV exGateway exProxy1a "proxy1a" "ansible_host" =
      some (if exProxy1a.publicIP = "" then exProxy1a.privateIP else exProxy1a.publicIP) ∧
    resolvedHV exGateway exProxy1a "proxy1a" "vpn_ip" = none :=
  claim_C1 exDir exGateway exProxy1a rfl rfl rfl

/-- C3: for every resolved target server, the vpn_ip key of the result
equals exactly what the specification formula predicts for the target
server name: present if and only if the name has at least two
characters, ends in a decimal digit and contains a class substring in
priority order proxy, master, worker, and in that case equal to
192.168.66. followed by the class octet prefix and the single trailing
character. -/
theorem claim_C3 (dir : Directory) (name : String) (gw srv : SServer)
    (hall : allowedServerName name = true) (hgw : dir "proxy0" = some gw)
    (hsrv : dir name = some srv) :
    ∃ hv : HostVars, (getServer dir name).1 = Except.ok hv ∧
      hv "vpn_ip" = vpnIpSpec (if name = "proxy0" then gw else srv).name :=
  ⟨resolvedHV gw (if name = "proxy0" then gw else srv) name,
    (getServer_ok dir name gw srv hall hgw hsrv).1,
    resolvedHV_vpn gw (if name = "proxy0" then gw else srv) name⟩

theorem claim_C3_witness :
    (∃ hv : HostVars, (getServer exDir "proxy7").1 = Except.ok hv ∧
      hv "vpn_ip" = vpnIpSpec (if "proxy7" = "proxy0" then exGateway else exProxy7).name) ∧
    vpnIpSpec "proxy7" = some "192.168.66.17" ∧
    vpnIpSpec "master3" = some "192.168.66.23" :=
  ⟨claim_C3 exDir "proxy7" exGateway exProxy7 rfl rfl rfl, by decide, by decide⟩

/-- C4 counterexample: invoking the program with no arguments does not
print the usage message; the mode argument defaults to the list mode
and the inventory is produced. -/
theorem claim_C4_cex :
    mainDispatch ["scaleway-dynamic-inventory"] = CliAction.runList ∧
    CliAction.runList ≠ CliAction.usage := ⟨rfl, by decide⟩

/-- C4 (amended): invoking the program with a first argument that is
neither the list flag nor the host flag prints a one-line usage message
to standard error and exits with code 1, producing no inventory JSON on
standard output; invoking it with no arguments instead defaults to the
list mode. -/
theorem claim_C4 :
    (∀ (prog a : String) (rest : List String), a ≠ "--list" → a ≠ "--host" →
      mainDispatch (prog :: a :: rest) = CliAction.usage ∧
      producesOutput CliAction.usage = false) ∧
    (∀ prog : String, mainDispatch [prog] = CliAction.runList) := by
  constructor
  · intro prog a rest h1 h2
    exact ⟨by simp [mainDispatch, h1, h2], rfl⟩
  · intro prog
    rfl

theorem claim_C4_witness :
    mainDispatch ["scaleway-dynamic-inventory", "--bogus"] = CliAction.usage ∧
    producesOutput CliAction.usage = false :=
  claim_C4.1 "scaleway-dynamic-inventory" "--bogus" [] (by decide) (by decide)

/-- C5: for every resolved target server, the returned ansible_host
equals the public address of the target when that address is non-empty
and its private address otherwise, and it is always set to exactly one
of the two. -/
theorem claim_C5 (dir : Directory) (name : String) (gw srv tgt : SServer)
    (hall : allowedServerName name = true) (hgw : dir "proxy0" = some gw)
    (hsrv : dir name = some srv) (htgt : tgt = if name = "proxy0" then gw else srv) :
    ∃ hv : HostVars, (getServer dir name).1 = Except.ok hv ∧
      hv "ansible_host" = some (if tgt.publicIP = "" then tgt.privateIP else tgt.publicIP) ∧
      (tgt.publicIP ≠ "" → hv "ansible_host" = some tgt.publicIP) ∧
      (tgt.publicIP = "" → hv "ansible_host" = some tgt.privateIP) := by
  subst htgt
  refine ⟨resolvedHV gw (if name = "proxy0" then gw else srv) name,
    (getServer_ok dir name gw srv hall hgw hsrv).1,
    resolvedHV_host gw (if name = "proxy0" then gw else srv) name, ?_, ?_⟩
  · intro hpub
    rw [resolvedHV_host, if_neg hpub]
  · intro hpub
    rw [resolvedHV_host, if_pos hpub]

theorem claim_C5_witness :
    (∃ hv : HostVars, (getServer exDir "proxy7").1 = Except.ok hv ∧
      hv "ansible_host" =
        some (if exProxy7.publicIP = "" then exProxy7.privateIP else exProxy7.publicIP) ∧
      (exProxy7.publicIP ≠ "" → hv "ansible_host" = some exProxy7.publicIP) ∧
      (exProxy7.publicIP = "" → hv "ansible_host" = some exProxy7.privateIP)) :=
  claim_C5 exDir "proxy7" exGateway exProxy7 exProxy7 rfl rfl rfl (by decide)

/-- C6: resolving proxy0 always sets proxy_inet to True and leaves
the ssh common arguments at the baseline, which contains no
ProxyCommand clause; resolving any other valid name never sets
proxy_inet and produces the baseline followed by exactly one
ProxyCommand clause built from the public address of the gateway
server resolved under the name proxy0. -/
theorem claim_C6 (dir : Directory) (gw : SServer) (hgw : dir "proxy0" = some gw) :
    (∃ hv : HostVars, (getServer dir "proxy0").1 = Except.ok hv ∧
      hv "proxy_inet" = some "True" ∧
      hv "ansible_ssh_common_args" = some sshCommonArgsBase ∧
      containsL ("ProxyCommand".data) sshCommonArgsBase.data = false) ∧
    (∀ (name : String) (srv : SServer), name ≠ "proxy0" →
      allowedServerName name = true → dir name = some srv →
      ∃ hv : HostVars, (getServer dir name).1 = Except.ok hv ∧
        hv "proxy_inet" = none ∧
        hv "ansible_ssh_common_args" =
          some (sshCommonArgsBase ++ proxyCommandClause gw.publicIP)) := by
  constructor
  · refine ⟨resolvedHV gw gw "proxy0", ?_, ?_, ?_, by decide⟩
    · have h := (getServer_ok dir "proxy0" gw gw rfl hgw hgw).1
      simpa using h
    · rw [resolvedHV_proxyInet, if_pos rfl]
    · rw [resolvedHV_sshArgs, if_pos rfl]
  · intro name srv hn hall hsrv
    refine ⟨resolvedHV gw srv name, ?_, ?_, ?_⟩
    · have h := (getServer_ok dir name gw srv hall hgw hsrv).1
      rw [if_neg hn] at h
      exact h
    · rw [resolvedHV_proxyInet, if_neg hn]
    · rw [resolvedHV_sshArgs, if_neg hn]

theorem claim_C6_witness :
    (∃ hv : HostVars, (getServer exDir "proxy0").1 = Except.ok hv ∧
      hv "proxy_inet" = some "True" ∧
      hv "ansible_ssh_common_args" = some sshCommonArgsBase ∧
      containsL ("ProxyCommand".data) sshCommonArgsBase.data = false) ∧
    (∃ hv : HostVars, (getServer exDir "master3").1 = Except.ok hv ∧
      hv "proxy_inet" = none ∧
      hv "ansible_ssh_common_args" =
        some (sshCommonArgsBase ++ proxyCommandClause exGateway.publicIP)) := by
  have h := claim_C6 exDir exGateway rfl
  exact ⟨h.1, h.2 "master3" exMaster3 (by decide) rfl rfl⟩

/-- C7 counterexample: resolving proxy0 leaves the ssh common
arguments at the baseline string, and that baseline is not the string
the claim states: it additionally starts with the quiet and
compression options. -/
theorem claim_C7_cex :
    (getServer exDir "proxy0").1 = Except.ok (resolvedHV exGateway exGateway "proxy0") ∧
    resolvedHV exGateway exGateway "proxy0" "ansible_ssh_common_args" =
      some sshCommonArgsBase ∧
    sshCommonArgsBase ≠
      "-o ControlMaster=auto -o ControlPersist=5m -o ForwardAgent=yes -o StrictHostKeyChecking=no -o UserKnownHostsFile=/dev/null" :=
  ⟨rfl, by decide, by decide⟩

/-- C7 (amended): for every valid target name, the baseline value of
the ssh common arguments set before any ProxyCommand is appended equals
exactly the string -q -C -o ControlMaster=auto -o ControlPersist=5m
-o ForwardAgent=yes -o StrictHostKeyChecking=no -o
UserKnownHostsFile=/dev/null, that is, the claimed option list preceded
by the quiet and compression flags. -/
theorem claim_C7 (dir : Directory) (gw : SServer) (hgw : dir "proxy0" = some gw) :
    sshCommonArgsBase =
      "-q -C -o ControlMaster=auto -o ControlPersist=5m -o ForwardAgent=yes -o StrictHostKeyChecking=no -o UserKnownHostsFile=/dev/null" ∧
    (∃ hv : HostVars, (getServer dir "proxy0").1 = Except.ok hv ∧
      hv "ansible_ssh_common_args" = some sshCommonArgsBase) ∧
    (∀ (name : String) (srv : SServer), name ≠ "proxy0" →
      allowedServerName name = true → dir name = some srv →
      ∃ hv : HostVars, (getServer dir name).1 = Except.ok hv ∧
        hv "ansible_ssh_common_args" =
          some (sshCommonArgsBase ++ proxyCommandClause gw.publicIP)) := by
  refine ⟨rfl, ?_, ?_⟩
  · refine ⟨resolvedHV gw gw "proxy0", ?_, ?_⟩
    · have h := (getServer_ok dir "proxy0" gw gw rfl hgw hgw).1
      simpa using h
    · rw [resolvedHV_sshArgs, if_pos rfl]
  · intro name srv hn hall hsrv
    refine ⟨resolvedHV gw srv name, ?_, ?_⟩
    · have h := (getServer_ok dir name gw srv hall hgw hsrv).1
      rw [if_neg hn] at h
      exact h
    · rw [resolvedHV_sshArgs, if_neg hn]

theorem claim_C7_witness :
    sshCommonArgsBase =
      "-q -C -o ControlMaster=auto -o ControlPersist=5m -o ForwardAgent=yes -o StrictHostKeyChecking=no -o UserKnownHostsFile=/dev/null" ∧
    (∃ hv : HostVars, (getServer exDir "proxy0").1 = Except.ok hv ∧
      hv "ansible_ssh_common_args" = some sshCommonArgsBase) :=
  ⟨(claim_C7 exDir exGateway rfl).1, (claim_C7 exDir exGateway rfl).2.1⟩

/-- C8: for every server list and tag, the list stored under the tag
in the grouping equals, in directory order, one copy of the name of
each allowed-name server per occurrence of that tag among its tags;
servers with a non-matching name are skipped entirely, and a tag key
is present exactly when some allowed-name server carries that tag, so
servers with zero tags contribute no key and appear in no list. -/
theorem claim_C8 (ss : List SServer) (t : String) :
    lookupList (getServers ss) t = groupSpec ss t ∧
    (hasKey (getServers ss) t = true ↔ groupSpec ss t ≠ []) := by
  refine ⟨lookupList_getServers ss t, ?_⟩
  rw [hasKey_iff_lookupList_ne_nil _ _ (getServers_values_ne_nil ss),
    lookupList_getServers]

theorem claim_C8_witness :
    lookupList (getServers exServers) "proxy" = groupSpec exServers "proxy" ∧
    (hasKey (getServers exServers) "proxy" = true ↔ groupSpec exServers "proxy" ≠ []) :=
  claim_C8 exServers "proxy"

/-- C9: the list operation is deterministic: the grouping built from a
fixed directory listing is a fixed map with pairwise-distinct keys, and
its serialization is invariant under any reordering of the map entries,
so two runs produce byte-identical JSON whatever iteration order the
map exhibits. -/
theorem claim_C9 (ss : List SServer) (mIter : List (String × List String))
    (hperm : mIter.Perm (getServers ss)) :
    marshalGroups mIter = marshalGroups (getServers ss) :=
  marshalGroups_perm mIter (getServers ss) hperm (getServers_keys_pairwise ss)

theorem claim_C9_witness :
    marshalGroups exPermutedGroups = marshalGroups (getServers exServers) :=
  claim_C9 exServers exPermutedGroups (by decide)

/-- C10: the allowed-name check is an unanchored substring match of the
regexp branches proxy digit, master bracket-or-digit, and worke then
one or more r then a digit: a name is accepted if and only if it
contains such a fragment anywhere, so names with arbitrary surrounding
characters and names such as master[ are accepted while worker followed
by a non-digit is rejected. -/
theorem claim_C10 :
    (∀ s : String, allowedServerName s = true ↔ AllowedNameSpec s) ∧
    allowedServerName "myproxy1backup" = true ∧
    allowedServerName "master[" = true ∧
    allowedServerName "workerz" = false :=
  ⟨allowedServerName_iff, by decide, by decide, by decide⟩

end ScwInv
